import Mathlib

/-!
# Verification of the av-board-api availability service

Shallow embedding of `src/availability/availability.service.ts` and
`src/users/users.service.ts` over an explicit relational store mirroring the
Prisma schema (migration in the repository):

* `User(id, name, email UNIQUE, phone?, createdAt, updatedAt)`
* `Tag(id, name UNIQUE)` — the `id` column is an opaque generated value that is
  never observable through the API and every access in the source goes through
  the unique `name` index (`where: { name }`), so Tag rows are keyed here by
  their name and `UserTag.tagId` is represented by the referenced tag's name.
* `UserTag(userId, tagId)` — association rows.
* `BusySlot(id, from, to, reason?, userId)`.

Timestamps are absolute instants modelled as `Int` (the code compares
`Date.getTime()` values); JavaScript `Date` parsing is modelled by an explicit
`dateParse : String → Option Int` parameter (`none` = `NaN` result).
Generated random ids (`usr_…`, `busy_…`) are modelled by a fresh counter
carried in the store.  Fallible service methods return `Except AppError`.
-/

/-! ## Data model and embedded service operations -/

/-- Errors surfaced by the services: `BadRequestException` ("InvalidInput")
and `NotFoundException` ("NotFound"), each carrying its message. -/
inductive AppError where
  | badRequest : String → AppError
  | notFound : String → AppError
deriving DecidableEq, Repr

/-- A row of the `User` table. `phone` is nullable. -/
structure UserRow where
  id : String
  name : String
  email : String
  phone : Option String
  createdAt : Int
  updatedAt : Int
deriving DecidableEq, Repr

/-- A row of the `UserTag` association table.  `tagName` stands for the
`tagId` foreign key, resolved through the unique `Tag.name` index. -/
structure UserTag where
  userId : String
  tagName : String
deriving DecidableEq, Repr

/-- A row of the `BusySlot` table.  `from`/`to` are Lean keywords, hence
`fromT`/`toT`. -/
structure BusySlotRow where
  id : String
  userId : String
  fromT : Int
  toT : Int
  reason : Option String
deriving DecidableEq, Repr

/-- The Directory Store: the database state the Prisma client operates on.
`tagCatalog` is the `Tag` table (rows keyed by their unique name);
`nextId` models the supply of fresh generated identifiers. -/
structure Store where
  users : List UserRow
  tagCatalog : List String
  userTags : List UserTag
  busySlots : List BusySlotRow
  nextId : Nat
deriving DecidableEq, Repr

/-- The tag names a user holds: `tags: { include: { tag: true } }` read as the
user's `UserTag` rows joined to `Tag`. -/
def userTagNames (st : Store) (uid : String) : List String :=
  (st.userTags.filter (fun ut => ut.userId = uid)).map (fun ut => ut.tagName)

/-- The busy slots belonging to a user (`busySlots: true` include). -/
def userBusySlots (st : Store) (uid : String) : List BusySlotRow :=
  st.busySlots.filter (fun s => s.userId = uid)

/-- A busy slot rendered for the API (`toISOString` kept as the instant). -/
structure BusySlotApi where
  id : String
  fromT : Int
  toT : Int
  reason : Option String
deriving DecidableEq, Repr

/-- The flat `User` view returned by the services (`toApiUser` / the mapping
at the end of `getFreeUsers`). -/
structure ApiUser where
  id : String
  name : String
  email : String
  phone : Option String
  tags : List String
  busy : List BusySlotApi
  createdAt : Int
  updatedAt : Int
deriving DecidableEq, Repr

/-- `toApiUser` of `users.service.ts`, also the projection at the end of
`getFreeUsers`: flattens a user row together with its tag names and busy
slots. -/
def toApiUser (st : Store) (u : UserRow) : ApiUser :=
  { id := u.id
    name := u.name
    email := u.email
    phone := u.phone
    tags := userTagNames st u.id
    busy := (userBusySlots st u.id).map (fun s =>
      { id := s.id, fromT := s.fromT, toT := s.toT, reason := s.reason })
    createdAt := u.createdAt
    updatedAt := u.updatedAt }

/-- JavaScript's `String.prototype.trim` (used as `t.trim()` throughout the
services), reimplemented over the character list so that it is computable by
evaluation: strip leading and trailing whitespace. -/
def jsTrim (s : String) : String :=
  ⟨((s.data.dropWhile Char.isWhitespace).reverse.dropWhile
      Char.isWhitespace).reverse⟩

/-- Splitting a character list on commas, keeping empty pieces — the
behavior of JavaScript's `split(',')`.  `cur` holds the current piece
reversed. -/
def splitCommaAux : List Char → List Char → List String
  | [], cur => [⟨cur.reverse⟩]
  | c :: rest, cur =>
    if c = ',' then ⟨cur.reverse⟩ :: splitCommaAux rest []
    else splitCommaAux rest (c :: cur)

/-- JavaScript's `s.split(',')`. -/
def splitComma (s : String) : List String :=
  splitCommaAux s.data []

/-- `parseIsoDate(value, field)` (identical in both services): an absent or
whitespace-only value raises `field + " is required"`; a value the JS `Date`
constructor cannot parse (`dateParse` returns `none`) raises
`field + " must be a valid ISO datetime"`. -/
def parseIsoDate (dateParse : String → Option Int) (value : Option String)
    (field : String) : Except AppError Int :=
  match value with
  | none => .error (.badRequest (field ++ " is required"))
  | some v =>
    if jsTrim v = "" then .error (.badRequest (field ++ " is required"))
    else
      match dateParse v with
      | none => .error (.badRequest (field ++ " must be a valid ISO datetime"))
      | some t => .ok t

/-- The trim/drop-empty/dedupe loop shared verbatim by
`normalizeTagsFromQuery` (availability service) and `normalizeTags`
(users service).  `acc` holds the output so far, reversed; it doubles as the
`seen` set since the loop only appends names it has not seen. -/
def normalizeLoop : List String → List String → List String
  | [], acc => acc.reverse
  | t :: rest, acc =>
    let normalized := jsTrim t
    if normalized = "" then normalizeLoop rest acc
    else if acc.contains normalized then normalizeLoop rest acc
    else normalizeLoop rest (normalized :: acc)

/-- `normalizeTags` of `users.service.ts`. -/
def normalizeTags (tags : List String) : List String :=
  normalizeLoop tags []

/-- The raw `tags` query value: absent, a single string, or a list. -/
inductive TagsInput where
  | absent : TagsInput
  | str : String → TagsInput
  | list : List String → TagsInput
deriving DecidableEq, Repr

/-- The `raw` candidate list built at the top of `normalizeTagsFromQuery`:
an array is spread as-is, a single string is split on commas. -/
def rawTagCandidates : TagsInput → List String
  | .absent => []
  | .str s => splitComma s
  | .list l => l

/-- `normalizeTagsFromQuery` of `availability.service.ts`. -/
def normalizeTagsFromQuery (tags : TagsInput) : List String :=
  normalizeLoop (rawTagCandidates tags) []

/-- The Prisma busy-slot exclusion condition:
`from: { lt: to }, to: { gt: from }` — the slot overlaps the query window. -/
def slotBlocks (f t : Int) (s : BusySlotRow) : Bool :=
  decide (s.fromT < t) && decide (f < s.toT)

/-- `busySlots: { none: … }`: the user has no busy slot overlapping the
window `[f, t)`. -/
def isFree (st : Store) (f t : Int) (uid : String) : Bool :=
  (userBusySlots st uid).all (fun s => !slotBlocks f t s)

/-- The conjoined tag filters `tags: { some: { tag: { name } } }`, one per
required tag name. -/
def matchesTags (st : Store) (required : List String) (uid : String) : Bool :=
  required.all (fun n => (userTagNames st uid).contains n)

/-- The query input of `getFreeUsers` (`GetFreeUsersInput`): raw strings as
they arrive from the HTTP layer (`none` = query parameter absent). -/
structure GetFreeUsersInput where
  fromS : Option String
  toS : Option String
  tags : TagsInput
deriving Repr

/-- The validation prefix of `getFreeUsers` (its first three statements):
parse `from`, parse `to`, reject `from >= to`. -/
def validateWindow (dateParse : String → Option Int) (input : GetFreeUsersInput) :
    Except AppError (Int × Int) :=
  match parseIsoDate dateParse input.fromS "from" with
  | .error e => .error e
  | .ok f =>
    match parseIsoDate dateParse input.toS "to" with
    | .error e => .error e
    | .ok t =>
      if f ≥ t then .error (.badRequest "from must be before to")
      else .ok (f, t)

/-- `getFreeUsers` of `availability.service.ts`: validate the window, build
the tag filter, and return every user matching all required tags whose busy
slots all avoid the window, rendered through the flat projection. -/
def getFreeUsers (dateParse : String → Option Int) (st : Store)
    (input : GetFreeUsersInput) : Except AppError (List ApiUser) :=
  match validateWindow dateParse input with
  | .error e => .error e
  | .ok (f, t) =>
    let tagFilter := normalizeTagsFromQuery input.tags
    .ok ((st.users.filter
      (fun u => matchesTags st tagFilter u.id && isFree st f t u.id)).map
        (toApiUser st))

/-- `tx.tag.upsert({ where: { name }, update: {}, create: { name } })`:
create-if-absent in the tag catalog (also the effect of the
`connectOrCreate` nested write in `create`). -/
def tagUpsert (st : Store) (name : String) : Store :=
  if st.tagCatalog.contains name then st
  else { st with tagCatalog := st.tagCatalog ++ [name] }

/-- `tx.userTag.upsert({ where: { userId_tagId }, update: {}, create: … })`:
attach the association row if it is not already present. -/
def userTagUpsert (st : Store) (uid name : String) : Store :=
  if st.userTags.contains ⟨uid, name⟩ then st
  else { st with userTags := st.userTags ++ [⟨uid, name⟩] }

/-- One iteration of the `for (const name of tags)` attach loops:
tag upsert followed by userTag upsert. -/
def attachOne (uid : String) (st : Store) (name : String) : Store :=
  userTagUpsert (tagUpsert st name) uid name

/-- The attach loops of `create`, `update` and `updateTags` (they are
identical): fold `attachOne` over the normalized names in order. -/
def attachTags (st : Store) (uid : String) (names : List String) : Store :=
  names.foldl (attachOne uid) st

/-- `CreateUserInput`.  `phone`/`tags` are optional fields; an absent
optional field is `undefined` in JS, which Prisma ignores in write data. -/
structure CreateUserInput where
  name : String
  email : String
  phone : Option String
  tags : Option (List String)
deriving Repr

/-- `create` of `users.service.ts`.  After the trim validations,
`prisma.user.create` inserts a fresh user with its tags
(`connectOrCreate`).  When the unique-email index fires (`P2002`), the
catch block finds the existing user by email and, in one transaction,
deletes all its busy slots and tag associations, attaches the new tag set,
and updates `name` and `phone` on the existing row — keeping its id.
Prisma skips `undefined` fields in `data`, so an absent `phone` leaves the
stored phone unchanged. -/
def create (st : Store) (input : CreateUserInput) :
    Except AppError (Store × ApiUser) :=
  if jsTrim input.name = "" then .error (.badRequest "name is required")
  else if jsTrim input.email = "" then .error (.badRequest "email is required")
  else
    let tags := normalizeTags (input.tags.getD [])
    match st.users.find? (fun u => u.email = input.email) with
    | none =>
      let uid := "usr_" ++ toString st.nextId
      let row : UserRow :=
        { id := uid, name := input.name, email := input.email
          phone := input.phone, createdAt := 0, updatedAt := 0 }
      let st1 : Store :=
        { st with users := st.users ++ [row], nextId := st.nextId + 1 }
      let st2 := attachTags st1 uid tags
      .ok (st2, toApiUser st2 row)
    | some existing =>
      let st1 : Store :=
        { st with
          busySlots := st.busySlots.filter (fun s => s.userId ≠ existing.id)
          userTags := st.userTags.filter (fun ut => ut.userId ≠ existing.id) }
      let st2 := attachTags st1 existing.id tags
      let row : UserRow :=
        { existing with
          name := input.name
          phone := input.phone.orElse (fun _ => existing.phone) }
      let st3 : Store :=
        { st2 with
          users := st2.users.map (fun u => if u.id = existing.id then row else u) }
      .ok (st3, toApiUser st3 row)

/-- A failure of the underlying `prisma.user.delete` call: the record was
not found, or the store/connection failed. -/
inductive StoreFailure where
  | recordNotFound : StoreFailure
  | connectivity : String → StoreFailure
deriving DecidableEq, Repr

/-- `prisma.user.delete({ where: { id } })`: deletes the user row, its
`UserTag` and `BusySlot` rows cascading (`ON DELETE CASCADE`); throws
`recordNotFound` for an unknown id.  `infra` injects a possible
store/connectivity failure raised by the client. -/
def prismaUserDelete (st : Store) (id : String) (infra : Option StoreFailure) :
    Except StoreFailure Store :=
  match infra with
  | some e => .error e
  | none =>
    if st.users.any (fun u => u.id = id) then
      .ok { st with
        users := st.users.filter (fun u => u.id ≠ id)
        userTags := st.userTags.filter (fun ut => ut.userId ≠ id)
        busySlots := st.busySlots.filter (fun s => s.userId ≠ id) }
    else .error .recordNotFound

/-- `delete` of `users.service.ts`: a bare `try/catch` that replaces every
failure of the store delete by `NotFoundException("user not found")`. -/
def deleteUser (st : Store) (id : String) (infra : Option StoreFailure) :
    Except AppError Store :=
  match prismaUserDelete st id infra with
  | .ok st1 => .ok st1
  | .error _ => .error (.notFound "user not found")

/-- `UpdateUserTagsInput`: optional add and remove lists. -/
structure UpdateUserTagsInput where
  add : Option (List String)
  remove : Option (List String)
deriving Repr

/-- `updateTags` of `users.service.ts`: normalize both lists; inside a
transaction, fail `NotFound` for an unknown user, attach every `add` name
(create-tag-if-absent), then—if the remove list is nonempty—delete the
user's association rows whose tag name is in `remove`
(`deleteMany({ userId, tag: { name: { in: remove } } })`), and re-read the
user. -/
def updateTags (st : Store) (id : String) (input : UpdateUserTagsInput) :
    Except AppError (Store × ApiUser) :=
  let add := normalizeTags (input.add.getD [])
  let remove := normalizeTags (input.remove.getD [])
  match st.users.find? (fun u => u.id = id) with
  | none => .error (.notFound "user not found")
  | some _ =>
    let st1 := attachTags st id add
    let st2 : Store :=
      if remove.length > 0 then
        { st1 with userTags := st1.userTags.filter (fun ut => !(ut.userId = id && remove.contains ut.tagName)) }
      else st1
    match st2.users.find? (fun u => u.id = id) with
    | none => .error (.notFound "user not found")
    | some u => .ok (st2, toApiUser st2 u)

/-- `MarkBusyInput`: raw from/to strings and an optional reason. -/
structure MarkBusyInput where
  fromS : Option String
  toS : Option String
  reason : Option String
deriving Repr

/-- `markBusy` of `users.service.ts`: parse both timestamps, reject
`from >= to`, reject an unknown user id, then create and return a busy slot
carrying exactly the given `from`, `to` and optional `reason`. -/
def markBusy (dateParse : String → Option Int) (st : Store) (id : String)
    (input : MarkBusyInput) : Except AppError (Store × BusySlotApi) :=
  match parseIsoDate dateParse input.fromS "from" with
  | .error e => .error e
  | .ok f =>
    match parseIsoDate dateParse input.toS "to" with
    | .error e => .error e
    | .ok t =>
      if f ≥ t then .error (.badRequest "from must be before to")
      else if !(st.users.any (fun u => u.id = id)) then
        .error (.notFound "user not found")
      else
        let slot : BusySlotRow :=
          { id := "busy_" ++ toString st.nextId, userId := id
            fromT := f, toT := t, reason := input.reason }
        .ok ({ st with busySlots := st.busySlots ++ [slot]
                       nextId := st.nextId + 1 },
             { id := slot.id, fromT := f, toT := t, reason := input.reason })

/-- The user holds the tag: the association row is present. -/
def userHasTag (st : Store) (uid n : String) : Prop :=
  (⟨uid, n⟩ : UserTag) ∈ st.userTags

/-- Spec-side definition (follows the spec's words, to be compared with the
code's `normalizeTagsFromQuery`): remove duplicates while keeping the first
occurrence and preserving first-seen order. -/
def dedupFirst : List String → List String
  | [] => []
  | x :: xs => x :: dedupFirst (xs.filter (fun y => y ≠ x))
termination_by l => l.length
decreasing_by
  simp only [List.length_cons, Nat.lt_succ_iff]
  exact List.length_filter_le _ _

/-- Spec-side definition: the candidate tag names — an absent specification
yields none, a single string is split on commas, a list is taken as-is. -/
def specTagCandidates : TagsInput → List String
  | .absent => []
  | .str s => splitComma s
  | .list l => l

/-- Spec-side definition (follows the spec's words): trim every candidate,
discard the ones that are empty after trimming, and remove duplicates
keeping the first occurrence. -/
def specRequiredTags (tags : TagsInput) : List String :=
  dedupFirst (((specTagCandidates tags).map jsTrim).filter
    (fun n => n ≠ ""))

/-- A store holding one user whose email will be reused and whose phone is
set, for exhibiting the phone behavior of a duplicate-email create. -/
def dupStore : Store :=
  { users := [⟨"u2", "Two", "b@x", some "111", 0, 0⟩]
    tagCatalog := []
    userTags := []
    busySlots := []
    nextId := 0 }

/-- A create input reusing the email of `dupStore`'s user and supplying no
phone. -/
def dupInput : CreateUserInput :=
  { name := "New", email := "b@x", phone := none, tags := none }

/-- Equality of `Except` results is decidable (needed to evaluate the
embedded services on concrete inputs). -/
instance {ε α : Type} [DecidableEq ε] [DecidableEq α] :
    DecidableEq (Except ε α)
  | .error e, .error f =>
    if h : e = f then .isTrue (by rw [h]) else .isFalse (by simp [h])
  | .error _, .ok _ => .isFalse (by simp)
  | .ok _, .error _ => .isFalse (by simp)
  | .ok a, .ok b =>
    if h : a = b then .isTrue (by rw [h]) else .isFalse (by simp [h])

/-- A timestamp parser mapping a handful of literal strings to instants,
standing in for `new Date(...)` in concrete runs. -/
def exDateParse : String → Option Int :=
  fun s => if s = "0" then some 0 else if s = "10" then some 10
    else if s = "3" then some 3 else if s = "5" then some 5
    else if s = "7" then some 7 else none

/-- A two-user store: `u1` (tag `backend`, busy `[10, 20)`) and `u2`
(tag `frontend`, no busy slots, phone set). -/
def exStore : Store :=
  { users := [⟨"u1", "One", "a@x", none, 0, 0⟩,
              ⟨"u2", "Two", "b@x", some "111", 0, 0⟩]
    tagCatalog := ["backend", "frontend"]
    userTags := [⟨"u1", "backend"⟩, ⟨"u2", "frontend"⟩]
    busySlots := [⟨"b1", "u1", 10, 20, none⟩]
    nextId := 7 }

/-- The result of querying `exStore` for free `frontend` users over
`[0, 10)`. -/
def exOutFrontend : List ApiUser :=
  [⟨"u2", "Two", "b@x", some "111", ["frontend"], [], 0, 0⟩]

/-- The result of querying `exStore` for free `backend` users over
`[0, 10)`: `u1`'s slot `[10, 20)` only touches the window. -/
def exOutBackend : List ApiUser :=
  [⟨"u1", "One", "a@x", none, ["backend"], [⟨"b1", 10, 20, none⟩], 0, 0⟩]

/-- The result of querying `exStore` with no required tags over `[0, 10)`:
both users are free. -/
def exOutAll : List ApiUser :=
  [⟨"u1", "One", "a@x", none, ["backend"], [⟨"b1", 10, 20, none⟩], 0, 0⟩,
   ⟨"u2", "Two", "b@x", some "111", ["frontend"], [], 0, 0⟩]

/-- A tag update for `u1` adding `z` and removing `z` and `frontend`. -/
def exUpdInput : UpdateUserTagsInput := ⟨some ["z"], some ["z", "frontend"]⟩

/-- The store after applying `exUpdInput` to `u1` in `exStore`: the catalog
gained `z`, no association changed. -/
def exTagStore : Store :=
  { users := [⟨"u1", "One", "a@x", none, 0, 0⟩,
              ⟨"u2", "Two", "b@x", some "111", 0, 0⟩]
    tagCatalog := ["backend", "frontend", "z"]
    userTags := [⟨"u1", "backend"⟩, ⟨"u2", "frontend"⟩]
    busySlots := [⟨"b1", "u1", 10, 20, none⟩]
    nextId := 7 }

/-- The view of `u1` returned by that tag update. -/
def exTagApi : ApiUser :=
  ⟨"u1", "One", "a@x", none, ["backend"], [⟨"b1", 10, 20, none⟩], 0, 0⟩

/-- The `exStore` row whose email a duplicate create reuses. -/
def exExisting : UserRow := ⟨"u2", "Two", "b@x", some "111", 0, 0⟩

/-- A create input duplicating `u2`'s email, with a fresh tag. -/
def exCreateInput : CreateUserInput := ⟨"New", "b@x", none, some ["t1"]⟩

/-! ## Lemmas, claim theorems and witnesses -/

lemma mem_userTagNames {st : Store} {uid n : String} :
    n ∈ userTagNames st uid ↔ userHasTag st uid n := by
  simp only [userTagNames, userHasTag, List.mem_map, List.mem_filter,
    decide_eq_true_eq]
  constructor
  · rintro ⟨⟨u, m⟩, ⟨hmem, hu⟩, hm⟩
    cases hu; cases hm; exact hmem
  · intro h
    exact ⟨⟨uid, n⟩, ⟨h, rfl⟩, rfl⟩

lemma attachOne_users (uid : String) (st : Store) (n : String) :
    (attachOne uid st n).users = st.users := by
  simp only [attachOne, userTagUpsert, tagUpsert]
  split <;> split <;> rfl

lemma attachOne_busySlots (uid : String) (st : Store) (n : String) :
    (attachOne uid st n).busySlots = st.busySlots := by
  simp only [attachOne, userTagUpsert, tagUpsert]
  split <;> split <;> rfl

lemma attachOne_catalog (uid : String) (st : Store) (n m : String) :
    m ∈ (attachOne uid st n).tagCatalog ↔ m ∈ st.tagCatalog ∨ m = n := by
  have hn : st.tagCatalog.contains n = true → n ∈ st.tagCatalog :=
    fun h => by simpa using h
  simp only [attachOne, userTagUpsert, tagUpsert]
  split_ifs with h1 h2 h3
  · exact ⟨Or.inl, fun h => h.elim id (fun e => e ▸ hn h1)⟩
  · exact ⟨Or.inl, fun h => h.elim id (fun e => e ▸ hn h1)⟩
  · simp [List.mem_append]
  · simp [List.mem_append]

lemma attachOne_hasTag (uid : String) (st : Store) (n uid2 n2 : String) :
    userHasTag (attachOne uid st n) uid2 n2 ↔
      userHasTag st uid2 n2 ∨ (uid2 = uid ∧ n2 = n) := by
  have key : ∀ l : List UserTag, l.contains ⟨uid, n⟩ = true →
      ((⟨uid2, n2⟩ : UserTag) ∈ l ↔
        (⟨uid2, n2⟩ : UserTag) ∈ l ∨ (uid2 = uid ∧ n2 = n)) := by
    intro l hc
    have hn : (⟨uid, n⟩ : UserTag) ∈ l := by simpa using hc
    constructor
    · exact Or.inl
    · rintro (h | ⟨rfl, rfl⟩)
      · exact h
      · exact hn
  simp only [attachOne, userTagUpsert, tagUpsert, userHasTag]
  split_ifs with h1 h2 h3
  · exact key _ h2
  · simp [List.mem_append, UserTag.mk.injEq]
  · exact key _ h3
  · simp [List.mem_append, UserTag.mk.injEq]

lemma attachTags_users (st : Store) (uid : String) (names : List String) :
    (attachTags st uid names).users = st.users := by
  induction names generalizing st with
  | nil => rfl
  | cons n rest ih =>
    simp only [attachTags, List.foldl_cons] at ih ⊢
    rw [ih, attachOne_users]

lemma attachTags_busySlots (st : Store) (uid : String) (names : List String) :
    (attachTags st uid names).busySlots = st.busySlots := by
  induction names generalizing st with
  | nil => rfl
  | cons n rest ih =>
    simp only [attachTags, List.foldl_cons] at ih ⊢
    rw [ih, attachOne_busySlots]

lemma attachTags_catalog (st : Store) (uid : String) (names : List String)
    (m : String) :
    m ∈ (attachTags st uid names).tagCatalog ↔
      m ∈ st.tagCatalog ∨ m ∈ names := by
  induction names generalizing st with
  | nil => simp [attachTags]
  | cons n rest ih =>
    simp only [attachTags, List.foldl_cons] at ih ⊢
    rw [ih, attachOne_catalog]
    simp only [List.mem_cons]
    tauto

lemma attachTags_hasTag (st : Store) (uid : String) (names : List String)
    (uid2 n2 : String) :
    userHasTag (attachTags st uid names) uid2 n2 ↔
      userHasTag st uid2 n2 ∨ (uid2 = uid ∧ n2 ∈ names) := by
  induction names generalizing st with
  | nil => simp [attachTags]
  | cons n rest ih =>
    simp only [attachTags, List.foldl_cons] at ih ⊢
    rw [ih, attachOne_hasTag]
    simp only [List.mem_cons]
    tauto

lemma mem_normalizeLoop (n : String) (l acc : List String) :
    n ∈ normalizeLoop l acc ↔ n ∈ acc ∨ (n ≠ "" ∧ ∃ s ∈ l, jsTrim s = n) := by
  induction l generalizing acc with
  | nil => simp [normalizeLoop]
  | cons t rest ih =>
    simp only [normalizeLoop]
    by_cases hm : jsTrim t = ""
    · rw [if_pos hm, ih]
      simp only [List.mem_cons]
      constructor
      · rintro (h | ⟨hne, s, hs, hrfl⟩)
        · exact Or.inl h
        · exact Or.inr ⟨hne, s, Or.inr hs, hrfl⟩
      · rintro (h | ⟨hne, s, hs | hs, hrfl⟩)
        · exact Or.inl h
        · subst hs
          exact absurd (hrfl.symm.trans hm) hne
        · exact Or.inr ⟨hne, s, hs, hrfl⟩
    · rw [if_neg hm]
      by_cases hc : acc.contains (jsTrim t)
      · rw [if_pos hc, ih]
        have hmem : jsTrim t ∈ acc := by simpa using hc
        simp only [List.mem_cons]
        constructor
        · rintro (h | ⟨hne, s, hs, hrfl⟩)
          · exact Or.inl h
          · exact Or.inr ⟨hne, s, Or.inr hs, hrfl⟩
        · rintro (h | ⟨hne, s, hs | hs, hrfl⟩)
          · exact Or.inl h
          · exact Or.inl (by subst hs; exact hrfl ▸ hmem)
          · exact Or.inr ⟨hne, s, hs, hrfl⟩
      · rw [if_neg hc, ih]
        simp only [List.mem_cons]
        constructor
        · rintro ((h | h) | ⟨hne, s, hs, hrfl⟩)
          · exact Or.inr ⟨h ▸ hm, t, Or.inl rfl, h.symm⟩
          · exact Or.inl h
          · exact Or.inr ⟨hne, s, Or.inr hs, hrfl⟩
        · rintro (h | ⟨hne, s, hs | hs, hrfl⟩)
          · exact Or.inl (Or.inr h)
          · exact Or.inl (Or.inl (by subst hs; exact hrfl.symm))
          · exact Or.inr ⟨hne, s, hs, hrfl⟩

lemma mem_normalizeTags (n : String) (l : List String) :
    n ∈ normalizeTags l ↔ n ≠ "" ∧ ∃ s ∈ l, jsTrim s = n := by
  simpa using mem_normalizeLoop n l []

lemma mem_normalizeTagsFromQuery (n : String) (tags : TagsInput) :
    n ∈ normalizeTagsFromQuery tags ↔
      n ≠ "" ∧ ∃ s ∈ rawTagCandidates tags, jsTrim s = n := by
  simpa using mem_normalizeLoop n (rawTagCandidates tags) []

lemma normalizeLoop_eq_dedupFirst (l acc : List String) :
    normalizeLoop l acc =
      acc.reverse ++ dedupFirst
        (((l.map jsTrim).filter (fun n => n ≠ "")).filter
          (fun n => !acc.contains n)) := by
  induction l generalizing acc with
  | nil => simp [normalizeLoop, dedupFirst]
  | cons t rest ih =>
    simp only [normalizeLoop, List.map_cons]
    by_cases hm : jsTrim t = ""
    · rw [if_pos hm, ih]
      simp [List.filter_cons, hm]
    · rw [if_neg hm]
      have h1 : ((jsTrim t :: rest.map jsTrim).filter (fun n => n ≠ "")) =
          jsTrim t :: ((rest.map jsTrim).filter (fun n => n ≠ "")) := by
        simp [List.filter_cons, hm]
      rw [h1]
      by_cases hc : acc.contains (jsTrim t)
      · rw [if_pos hc, ih]
        have h2 : ((jsTrim t :: (rest.map jsTrim).filter
              (fun n => n ≠ "")).filter (fun n => !acc.contains n)) =
            (((rest.map jsTrim).filter (fun n => n ≠ "")).filter
              (fun n => !acc.contains n)) := by
          rw [List.filter_cons, if_neg (by simpa using hc)]
        rw [h2]
      · rw [if_neg hc, ih]
        have h2 : ((jsTrim t :: (rest.map jsTrim).filter
              (fun n => n ≠ "")).filter (fun n => !acc.contains n)) =
            jsTrim t :: (((rest.map jsTrim).filter (fun n => n ≠ "")).filter
              (fun n => !acc.contains n)) := by
          rw [List.filter_cons, if_pos (by simpa using hc)]
        rw [h2, dedupFirst]
        simp only [List.reverse_cons, List.append_assoc, List.singleton_append]
        have h3 : ∀ X : List String,
            (X.filter (fun n => !(jsTrim t :: acc).contains n)) =
            ((X.filter (fun n => !acc.contains n)).filter
              (fun y => y ≠ jsTrim t)) := by
          intro X
          rw [List.filter_filter]
          apply List.filter_congr
          intro x _
          simp only [List.contains_cons, Bool.not_or]
          cases hx : (x == jsTrim t) <;> cases hy : acc.contains x <;>
            simp_all [beq_iff_eq]
        rw [h3]

lemma isFree_iff (st : Store) (f t : Int) (uid : String) :
    isFree st f t uid = true ↔
      ∀ s ∈ userBusySlots st uid, ¬(s.fromT < t ∧ f < s.toT) := by
  simp only [isFree, slotBlocks, List.all_eq_true, Bool.not_eq_eq_eq_not,
    Bool.not_true, Bool.and_eq_false_imp, decide_eq_true_eq,
    decide_eq_false_iff_not]
  constructor <;> intro h s hs <;> have := h s hs <;> omega

lemma matchesTags_iff (st : Store) (required : List String) (uid : String) :
    matchesTags st required uid = true ↔
      ∀ n ∈ required, n ∈ userTagNames st uid := by
  simp [matchesTags, List.all_eq_true]

lemma parseIsoDate_error_badRequest {dp : String → Option Int}
    {v : Option String} {field : String} {e : AppError}
    (h : parseIsoDate dp v field = .error e) : ∃ msg, e = .badRequest msg := by
  unfold parseIsoDate at h
  match v with
  | none =>
    simp only at h
    exact ⟨field ++ " is required", (Except.error.injEq _ _).mp h.symm⟩
  | some s =>
    simp only at h
    split at h
    · exact ⟨field ++ " is required", ((Except.error.injEq _ _).mp h).symm⟩
    · split at h
      · exact ⟨field ++ " must be a valid ISO datetime",
          ((Except.error.injEq _ _).mp h).symm⟩
      · exact absurd h (by simp)

lemma getFreeUsers_ok {dp : String → Option Int} {input : GetFreeUsersInput}
    {f t : Int} (st : Store) (hv : validateWindow dp input = .ok (f, t)) :
    getFreeUsers dp st input =
      .ok ((st.users.filter (fun u =>
        matchesTags st (normalizeTagsFromQuery input.tags) u.id &&
          isFree st f t u.id)).map (toApiUser st)) := by
  unfold getFreeUsers
  rw [hv]

lemma getFreeUsers_error {dp : String → Option Int} {input : GetFreeUsersInput}
    {e : AppError} (st : Store) (hv : validateWindow dp input = .error e) :
    getFreeUsers dp st input = .error e := by
  unfold getFreeUsers
  rw [hv]

lemma updateTags_state_char {st : Store} {id : String}
    {input : UpdateUserTagsInput} {st' : Store} {api : ApiUser}
    (h : updateTags st id input = .ok (st', api)) :
    (∀ uid n, userHasTag st' uid n ↔
        ((userHasTag st uid n ∨
            (uid = id ∧ n ∈ normalizeTags (input.add.getD []))) ∧
          ¬(uid = id ∧ n ∈ normalizeTags (input.remove.getD [])))) ∧
    (∀ n, n ∈ st'.tagCatalog ↔
        n ∈ st.tagCatalog ∨ n ∈ normalizeTags (input.add.getD [])) ∧
    st'.users = st.users ∧ st'.busySlots = st.busySlots := by
  simp only [updateTags] at h
  split at h
  · exact absurd h (by simp)
  · split at h
    · exact absurd h (by simp)
    · rename_i u0 hfind u1 hfind2
      have hst : st' = (if (normalizeTags (input.remove.getD [])).length > 0 then
          { attachTags st id (normalizeTags (input.add.getD [])) with
            userTags := (attachTags st id (normalizeTags (input.add.getD []))).userTags.filter
              (fun ut => !(ut.userId = id && (normalizeTags (input.remove.getD [])).contains ut.tagName)) }
        else attachTags st id (normalizeTags (input.add.getD []))) := by
        have := (Except.ok.injEq _ _).mp h
        exact (congrArg Prod.fst this).symm
      subst hst
      have hrem : ¬(normalizeTags (input.remove.getD [])).length > 0 →
          normalizeTags (input.remove.getD []) = [] := by
        intro hr
        exact List.eq_nil_of_length_eq_zero (Nat.eq_zero_of_not_pos hr)
      refine ⟨?_, ?_, ?_, ?_⟩
      · intro uid n
        by_cases hr : (normalizeTags (input.remove.getD [])).length > 0
        · rw [if_pos hr]
          have hmem : userHasTag
              { attachTags st id (normalizeTags (input.add.getD [])) with
                userTags := (attachTags st id
                  (normalizeTags (input.add.getD []))).userTags.filter
                  (fun ut => !(ut.userId = id &&
                    (normalizeTags (input.remove.getD [])).contains ut.tagName)) }
              uid n ↔
              (userHasTag (attachTags st id (normalizeTags (input.add.getD [])))
                uid n ∧ ¬(uid = id ∧
                  n ∈ normalizeTags (input.remove.getD []))) := by
            simp [userHasTag, List.mem_filter, -Bool.and_eq_true]
            intro _
            simp [Decidable.imp_iff_not_or, or_comm]
          rw [hmem, attachTags_hasTag]
        · rw [if_neg hr]
          rw [attachTags_hasTag]
          simp [hrem hr]
      · intro n
        by_cases hr : (normalizeTags (input.remove.getD [])).length > 0
        · rw [if_pos hr]
          exact attachTags_catalog st id _ n
        · rw [if_neg hr]
          exact attachTags_catalog st id _ n
      · by_cases hr : (normalizeTags (input.remove.getD [])).length > 0
        · rw [if_pos hr]
          exact attachTags_users st id _
        · rw [if_neg hr]
          exact attachTags_users st id _
      · by_cases hr : (normalizeTags (input.remove.getD [])).length > 0
        · rw [if_pos hr]
          exact attachTags_busySlots st id _
        · rw [if_neg hr]
          exact attachTags_busySlots st id _

/-- C5: the derived required-tag set equals the spec's description — absent
yields none, a single string splits on commas, a list is taken as-is; each
candidate is trimmed, empties are discarded, duplicates are removed keeping
the first occurrence in first-seen order. -/
theorem normalizeTagsFromQuery_eq_spec (tags : TagsInput) :
    normalizeTagsFromQuery tags = specRequiredTags tags := by
  unfold normalizeTagsFromQuery specRequiredTags
  rw [normalizeLoop_eq_dedupFirst]
  have hfilter : ∀ X : List String,
      X.filter (fun n => !([] : List String).contains n) = X := by
    intro X
    simp
  rw [hfilter]
  have hcand : rawTagCandidates tags = specTagCandidates tags := by
    cases tags <;> rfl
  rw [hcand]
  simp

/-- C9: the public delete replaces every failure of the underlying store
delete — record-not-found and store/connectivity errors alike — by
`NotFoundException("user not found")`. -/
theorem deleteUser_failure_reports_notFound (st : Store) (id : String)
    (infra : Option StoreFailure) (e : StoreFailure)
    (h : prismaUserDelete st id infra = .error e) :
    deleteUser st id infra = .error (.notFound "user not found") := by
  unfold deleteUser
  rw [h]

/-- C9 witness: a connectivity failure during delete surfaces as NotFound. -/
theorem deleteUser_failure_reports_notFound_witness :
    deleteUser ⟨[], [], [], [], 0⟩ "u9" (some (.connectivity "db down")) =
      .error (.notFound "user not found") :=
  deleteUser_failure_reports_notFound _ _ _ (.connectivity "db down") rfl

/-- C8: the remove side of `updateTags` detaches the named tags from the
user (after the call the user holds no removed name, and a name the user
never held was a no-op), never touches other users' associations, and never
deletes a `Tag` record — every name in the catalog before stays in the
catalog after. -/
theorem updateTags_detach_preserves_catalog (st : Store) (id : String)
    (input : UpdateUserTagsInput) (st' : Store) (api : ApiUser)
    (h : updateTags st id input = .ok (st', api)) :
    (∀ n ∈ st.tagCatalog, n ∈ st'.tagCatalog) ∧
    (∀ n ∈ normalizeTags (input.remove.getD []), ¬ userHasTag st' id n) ∧
    (∀ uid n, uid ≠ id → (userHasTag st' uid n ↔ userHasTag st uid n)) := by
  obtain ⟨hchar, hcat, -, -⟩ := updateTags_state_char h
  refine ⟨fun n hn => (hcat n).mpr (Or.inl hn), fun n hn hhas => ?_,
    fun uid n hne => ?_⟩
  · exact ((hchar id n).mp hhas).2 ⟨rfl, hn⟩
  · rw [hchar uid n]
    simp [hne]

/-- C10: after `updateTags`, a name appearing in both the normalized add and
remove lists is not held by the user (the adds all happen before the
removes), while its `Tag` record exists in the catalog. -/
theorem updateTags_add_also_removed (st : Store) (id : String)
    (input : UpdateUserTagsInput) (st' : Store) (api : ApiUser)
    (h : updateTags st id input = .ok (st', api)) :
    ∀ n, n ∈ normalizeTags (input.add.getD []) →
      n ∈ normalizeTags (input.remove.getD []) →
      ¬ userHasTag st' id n ∧ n ∈ st'.tagCatalog := by
  obtain ⟨hchar, hcat, -, -⟩ := updateTags_state_char h
  intro n hadd hrem
  exact ⟨fun hhas => ((hchar id n).mp hhas).2 ⟨rfl, hrem⟩,
    (hcat n).mpr (Or.inr hadd)⟩

/-- C3: a missing or unparseable `from` or `to`, or `from >= to`, makes
`getFreeUsers` fail with a BadRequest error whose value is the same for
every Directory Store state — the validation happens before any data
access, so no partial result is ever produced. -/
theorem getFreeUsers_invalid_input_rejected (dp : String → Option Int)
    (input : GetFreeUsersInput)
    (h : (∃ e, parseIsoDate dp input.fromS "from" = .error e) ∨
         (∃ e, parseIsoDate dp input.toS "to" = .error e) ∨
         (∃ f t, parseIsoDate dp input.fromS "from" = .ok f ∧
            parseIsoDate dp input.toS "to" = .ok t ∧ f ≥ t)) :
    ∃ msg, ∀ st : Store, getFreeUsers dp st input = .error (.badRequest msg) := by
  cases hf : parseIsoDate dp input.fromS "from" with
  | error e =>
    obtain ⟨msg, rfl⟩ := parseIsoDate_error_badRequest hf
    refine ⟨msg, fun st => ?_⟩
    apply getFreeUsers_error
    unfold validateWindow
    rw [hf]
  | ok f =>
    cases ht : parseIsoDate dp input.toS "to" with
    | error e =>
      obtain ⟨msg, rfl⟩ := parseIsoDate_error_badRequest ht
      refine ⟨msg, fun st => ?_⟩
      apply getFreeUsers_error
      unfold validateWindow
      rw [hf, ht]
    | ok t =>
      have hge : f ≥ t := by
        rcases h with ⟨e, he⟩ | ⟨e, he⟩ | ⟨f', t', hf', ht', hge⟩
        · rw [hf] at he
          cases he
        · rw [ht] at he
          cases he
        · have hf2 : f = f' := by
            have := hf.symm.trans hf'
            exact (Except.ok.injEq _ _).mp this
          have ht2 : t = t' := by
            have := ht.symm.trans ht'
            exact (Except.ok.injEq _ _).mp this
          rw [hf2, ht2]
          exact hge
      refine ⟨"from must be before to", fun st => ?_⟩
      apply getFreeUsers_error
      unfold validateWindow
      rw [hf, ht]
      exact if_pos hge

/-- C7: with both timestamps parsed, `markBusy` rejects a zero-length or
inverted interval with BadRequest, rejects an unknown user id with
NotFound, and otherwise appends exactly one busy slot carrying the given
`from`, `to` and optional `reason` for that user, returning it; the error
cases return no updated store, so no busy slot is created on failure. -/
theorem markBusy_spec (dp : String → Option Int) (st : Store) (id : String)
    (input : MarkBusyInput) (f t : Int)
    (hf : parseIsoDate dp input.fromS "from" = .ok f)
    (ht : parseIsoDate dp input.toS "to" = .ok t) :
    (f ≥ t → markBusy dp st id input =
      .error (.badRequest "from must be before to")) ∧
    (f < t → (∀ u ∈ st.users, u.id ≠ id) →
      markBusy dp st id input = .error (.notFound "user not found")) ∧
    (f < t → ∀ u ∈ st.users, u.id = id →
      ∃ st' slot, markBusy dp st id input = .ok (st', slot) ∧
        slot.fromT = f ∧ slot.toT = t ∧ slot.reason = input.reason ∧
        st'.busySlots = st.busySlots ++ [⟨slot.id, id, f, t, input.reason⟩] ∧
        st'.users = st.users ∧ st'.userTags = st.userTags ∧
        st'.tagCatalog = st.tagCatalog) := by
  refine ⟨fun hge => ?_, fun hlt habs => ?_, fun hlt u hu huid => ?_⟩
  · unfold markBusy
    rw [hf, ht]
    exact if_pos hge
  · have hany : st.users.any (fun u => u.id = id) = false := by
      simp only [List.any_eq_false, decide_eq_true_eq]
      exact habs
    unfold markBusy
    rw [hf, ht]
    exact Eq.trans (if_neg (not_le.mpr hlt)) (if_pos (by simp [hany]))
  · have hany : st.users.any (fun u => u.id = id) = true := by
      simp only [List.any_eq_true, decide_eq_true_eq]
      exact ⟨u, hu, huid⟩
    have hM : markBusy dp st id input = .ok
        ({ st with
            busySlots :=
              st.busySlots ++ [⟨"busy_" ++ toString st.nextId, id, f, t, input.reason⟩],
            nextId := st.nextId + 1 },
         ⟨"busy_" ++ toString st.nextId, f, t, input.reason⟩) := by
      unfold markBusy
      rw [hf, ht]
      exact Eq.trans (if_neg (not_le.mpr hlt)) (if_neg (by simp [hany]))
    exact ⟨_, _, hM, rfl, rfl, rfl, rfl, rfl, rfl, rfl⟩

/-- C1: every user returned by a successful `getFreeUsers` call is free over
the window — no busy slot `S` with `S.from < W.to` and `W.from < S.to`; a
slot that merely touches the window never blocks; and a tag-matching user
with zero busy slots is always returned. -/
theorem getFreeUsers_free_semantics (dp : String → Option Int) (st : Store)
    (input : GetFreeUsersInput) (f t : Int) (out : List ApiUser)
    (hv : validateWindow dp input = .ok (f, t))
    (hout : getFreeUsers dp st input = .ok out) :
    (∀ a ∈ out, ∃ u ∈ st.users, a.id = u.id ∧
      ∀ s ∈ userBusySlots st u.id, ¬(s.fromT < t ∧ f < s.toT)) ∧
    (∀ s : BusySlotRow, s.toT = f ∨ s.fromT = t → slotBlocks f t s = false) ∧
    (∀ u ∈ st.users, userBusySlots st u.id = [] →
      matchesTags st (normalizeTagsFromQuery input.tags) u.id = true →
      ∃ a ∈ out, a.id = u.id) := by
  have hq := getFreeUsers_ok st hv
  rw [hout] at hq
  have hq2 := (Except.ok.injEq _ _).mp hq
  subst hq2
  refine ⟨?_, ?_, ?_⟩
  · intro a ha
    obtain ⟨u, hu, rfl⟩ := List.mem_map.mp ha
    obtain ⟨humem, hpred⟩ := List.mem_filter.mp hu
    obtain ⟨-, hfree⟩ := Bool.and_eq_true_iff.mp hpred
    exact ⟨u, humem, rfl, (isFree_iff st f t u.id).mp hfree⟩
  · intro s hs
    rcases hs with h | h <;> simp [slotBlocks, h]
  · intro u hu hempty hmatch
    refine ⟨toApiUser st u,
      List.mem_map.mpr ⟨u, List.mem_filter.mpr ⟨hu, ?_⟩, rfl⟩, rfl⟩
    rw [Bool.and_eq_true]
    exact ⟨hmatch, (isFree_iff st f t u.id).mpr (by simp [hempty])⟩

/-- C2: a successful `getFreeUsers` result is exactly the intersection of
the tag-matching users and the free users — every returned view comes from
a store user satisfying both predicates, every store user satisfying both is
returned, tag matching means holding every required name exactly, and an
empty required set returns every free user. -/
theorem getFreeUsers_intersection (dp : String → Option Int) (st : Store)
    (input : GetFreeUsersInput) (f t : Int) (out : List ApiUser)
    (hv : validateWindow dp input = .ok (f, t))
    (hout : getFreeUsers dp st input = .ok out) :
    (∀ a ∈ out, ∃ u ∈ st.users, a = toApiUser st u ∧
      matchesTags st (normalizeTagsFromQuery input.tags) u.id = true ∧
      isFree st f t u.id = true) ∧
    (∀ u ∈ st.users,
      matchesTags st (normalizeTagsFromQuery input.tags) u.id = true →
      isFree st f t u.id = true → toApiUser st u ∈ out) ∧
    (∀ uid, matchesTags st (normalizeTagsFromQuery input.tags) uid = true ↔
      ∀ n ∈ normalizeTagsFromQuery input.tags, n ∈ userTagNames st uid) ∧
    (normalizeTagsFromQuery input.tags = [] →
      ∀ u ∈ st.users, isFree st f t u.id = true → toApiUser st u ∈ out) := by
  have hq := getFreeUsers_ok st hv
  rw [hout] at hq
  have hq2 := (Except.ok.injEq _ _).mp hq
  subst hq2
  refine ⟨?_, ?_, fun uid => matchesTags_iff st _ uid, ?_⟩
  · intro a ha
    obtain ⟨u, hu, rfl⟩ := List.mem_map.mp ha
    obtain ⟨humem, hpred⟩ := List.mem_filter.mp hu
    obtain ⟨hmatch, hfree⟩ := Bool.and_eq_true_iff.mp hpred
    exact ⟨u, humem, rfl, hmatch, hfree⟩
  · intro u hu hmatch hfree
    exact List.mem_map.mpr ⟨u, List.mem_filter.mpr
      ⟨hu, Bool.and_eq_true_iff.mpr ⟨hmatch, hfree⟩⟩, rfl⟩
  · intro hempty u hu hfree
    refine List.mem_map.mpr ⟨u, List.mem_filter.mpr
      ⟨hu, Bool.and_eq_true_iff.mpr ⟨?_, hfree⟩⟩, rfl⟩
    rw [hempty]
    rfl

/-- C6: adding a tag to the required set never enlarges the result — every
user view returned for the required list `T ++ [x]` is also returned for
`T`, over the same store and window. -/
theorem getFreeUsers_tag_monotone (dp : String → Option Int) (st : Store)
    (fromS toS : Option String) (T : List String) (x : String)
    (out1 out2 : List ApiUser)
    (h1 : getFreeUsers dp st ⟨fromS, toS, .list T⟩ = .ok out1)
    (h2 : getFreeUsers dp st ⟨fromS, toS, .list (T ++ [x])⟩ = .ok out2) :
    ∀ a ∈ out2, a ∈ out1 := by
  have hvsame : validateWindow dp ⟨fromS, toS, .list (T ++ [x])⟩ =
      validateWindow dp ⟨fromS, toS, .list T⟩ := rfl
  cases hv : validateWindow dp ⟨fromS, toS, TagsInput.list T⟩ with
  | error e =>
    rw [getFreeUsers_error st hv] at h1
    cases h1
  | ok p =>
    obtain ⟨f, t⟩ := p
    have hq1 := getFreeUsers_ok st hv
    have hq2 := getFreeUsers_ok st (hvsame.trans hv)
    rw [h1] at hq1
    rw [h2] at hq2
    have e1 := (Except.ok.injEq _ _).mp hq1
    have e2 := (Except.ok.injEq _ _).mp hq2
    subst e1
    subst e2
    intro a ha
    obtain ⟨u, hu, rfl⟩ := List.mem_map.mp ha
    obtain ⟨humem, hpred⟩ := List.mem_filter.mp hu
    obtain ⟨hmatch, hfree⟩ := Bool.and_eq_true_iff.mp hpred
    refine List.mem_map.mpr ⟨u, List.mem_filter.mpr
      ⟨humem, Bool.and_eq_true_iff.mpr ⟨?_, hfree⟩⟩, rfl⟩
    rw [matchesTags_iff] at hmatch ⊢
    intro n hn
    apply hmatch
    rw [mem_normalizeTagsFromQuery] at hn ⊢
    obtain ⟨hne, s, hs, hst⟩ := hn
    exact ⟨hne, s, List.mem_append_left [x] hs, hst⟩

/-- C4 (amended): a duplicate-email create does not reject — it wipes the
existing user's busy slots and tag associations, attaches the newly
supplied tag set creating absent tags, updates the record's name from the
new input and its phone only when the input supplies one (an absent phone
leaves the stored phone unchanged), keeps the existing id, and returns the
reused record. -/
theorem create_duplicate_email_reuses (st : Store) (input : CreateUserInput)
    (existing : UserRow)
    (hname : ¬ jsTrim input.name = "")
    (hemail : ¬ jsTrim input.email = "")
    (hfind : st.users.find? (fun u => u.email = input.email) = some existing) :
    ∃ st' api, create st input = .ok (st', api) ∧
      api.id = existing.id ∧
      api.name = input.name ∧
      api.email = input.email ∧
      api.phone = input.phone.orElse (fun _ => existing.phone) ∧
      api.busy = [] ∧
      (∀ n, n ∈ api.tags ↔ n ∈ normalizeTags (input.tags.getD [])) ∧
      (∀ n ∈ normalizeTags (input.tags.getD []), n ∈ st'.tagCatalog) ∧
      (∀ s ∈ st'.busySlots, s.userId ≠ existing.id) ∧
      st'.users.length = st.users.length ∧
      (∃ u ∈ st'.users, u.id = existing.id ∧ u.name = input.name ∧
        u.email = input.email ∧
        u.phone = input.phone.orElse (fun _ => existing.phone)) := by
  have hmem : existing ∈ st.users := List.mem_of_find?_eq_some hfind
  have hexmail : existing.email = input.email := by
    have := List.find?_some hfind
    simpa using this
  -- name the intermediate stores of the reset transaction
  set st1 : Store :=
    { st with
        busySlots := st.busySlots.filter (fun s => s.userId ≠ existing.id),
        userTags := st.userTags.filter (fun ut => ut.userId ≠ existing.id) } with hst1
  set tags := normalizeTags (input.tags.getD []) with htags
  set st2 := attachTags st1 existing.id tags with hst2
  set row : UserRow :=
    { existing with
        name := input.name,
        phone := input.phone.orElse (fun _ => existing.phone) } with hrow
  set st3 : Store :=
    { st2 with
        users := st2.users.map (fun u => if u.id = existing.id then row else u) }
    with hst3
  have hcreate : create st input = .ok (st3, toApiUser st3 row) := by
    simp only [create]
    rw [if_neg hname, if_neg hemail, hfind]
  have hbusy3 : st3.busySlots = st.busySlots.filter
      (fun s => s.userId ≠ existing.id) := by
    rw [hst3, hst2]
    show (attachTags st1 existing.id tags).busySlots = _
    rw [attachTags_busySlots]
  have husers2 : st2.users = st.users := by
    rw [hst2]
    rw [attachTags_users]
  have hnoslots : userBusySlots st3 existing.id = [] := by
    unfold userBusySlots
    rw [hbusy3]
    rw [List.filter_filter]
    apply List.filter_eq_nil_iff.mpr
    intro s _
    simp
  have hhas3 : ∀ n, userHasTag st3 existing.id n ↔ n ∈ tags := by
    intro n
    have h3eq : st3.userTags = st2.userTags := by rw [hst3]
    have : userHasTag st3 existing.id n ↔ userHasTag st2 existing.id n := by
      unfold userHasTag
      rw [h3eq]
    rw [this, hst2, attachTags_hasTag]
    have hnone : ¬ userHasTag st1 existing.id n := by
      unfold userHasTag
      rw [hst1]
      simp only [List.mem_filter]
      rintro ⟨-, hbad⟩
      simp at hbad
    simp [hnone]
  have hcat : ∀ n ∈ tags, n ∈ st3.tagCatalog := by
    intro n hn
    have h3eq : st3.tagCatalog = st2.tagCatalog := by rw [hst3]
    rw [h3eq, hst2, attachTags_catalog]
    exact Or.inr hn
  refine ⟨st3, toApiUser st3 row, hcreate, rfl, rfl, ?_, rfl, ?_, ?_, hcat, ?_, ?_, ?_⟩
  · show row.email = input.email
    rw [hrow]
    exact hexmail
  · show ((userBusySlots st3 row.id).map _) = []
    have : row.id = existing.id := rfl
    rw [this, hnoslots]
    rfl
  · intro n
    show n ∈ userTagNames st3 row.id ↔ _
    have : row.id = existing.id := rfl
    rw [this, mem_userTagNames, hhas3]
  · intro s hs
    rw [hbusy3] at hs
    have := (List.mem_filter.mp hs).2
    simpa using this
  · show (st2.users.map _).length = st.users.length
    rw [List.length_map, husers2]
  · refine ⟨row, ?_, rfl, rfl, ?_, rfl⟩
    · show row ∈ st2.users.map _
      refine List.mem_map.mpr ⟨existing, ?_, ?_⟩
      · rw [husers2]
        exact hmem
      · rw [if_pos rfl]
    · rw [hrow]
      exact hexmail

/-- C4 counterexample to the claim as stated: the duplicate-email create
reuses record `u2` but does not update its phone from the new input — the
input supplies no phone, yet the returned record still carries the old
phone `"111"` (Prisma ignores `undefined` fields in update data), not the
input's absent phone. -/
theorem create_duplicate_phone_not_from_input :
    dupInput.phone = none ∧
    (create dupStore dupInput).toOption.map (fun r => (r.2.id, r.2.phone)) =
      some ("u2", some "111") := by
  constructor
  · rfl
  · decide

/-- C1 witness: the free-semantics theorem at the concrete `frontend`
query over `[0, 10)` on `exStore`. -/
theorem getFreeUsers_free_semantics_witness :
    (∀ a ∈ exOutFrontend, ∃ u ∈ exStore.users, a.id = u.id ∧
      ∀ s ∈ userBusySlots exStore u.id, ¬(s.fromT < 10 ∧ 0 < s.toT)) ∧
    (∀ s : BusySlotRow, s.toT = 0 ∨ s.fromT = 10 →
      slotBlocks 0 10 s = false) ∧
    (∀ u ∈ exStore.users, userBusySlots exStore u.id = [] →
      matchesTags exStore (normalizeTagsFromQuery (.list ["frontend"]))
        u.id = true →
      ∃ a ∈ exOutFrontend, a.id = u.id) :=
  getFreeUsers_free_semantics exDateParse exStore
    ⟨some "0", some "10", .list ["frontend"]⟩ 0 10 exOutFrontend
    (by decide) (by decide)

/-- C2 witness: the intersection theorem at the same concrete query. -/
theorem getFreeUsers_intersection_witness :
    (∀ a ∈ exOutFrontend, ∃ u ∈ exStore.users, a = toApiUser exStore u ∧
      matchesTags exStore (normalizeTagsFromQuery (.list ["frontend"]))
        u.id = true ∧
      isFree exStore 0 10 u.id = true) ∧
    (∀ u ∈ exStore.users,
      matchesTags exStore (normalizeTagsFromQuery (.list ["frontend"]))
        u.id = true →
      isFree exStore 0 10 u.id = true → toApiUser exStore u ∈ exOutFrontend) ∧
    (∀ uid, matchesTags exStore (normalizeTagsFromQuery (.list ["frontend"]))
        uid = true ↔
      ∀ n ∈ normalizeTagsFromQuery (.list ["frontend"]),
        n ∈ userTagNames exStore uid) ∧
    (normalizeTagsFromQuery (.list ["frontend"]) = [] →
      ∀ u ∈ exStore.users, isFree exStore 0 10 u.id = true →
        toApiUser exStore u ∈ exOutFrontend) :=
  getFreeUsers_intersection exDateParse exStore
    ⟨some "0", some "10", .list ["frontend"]⟩ 0 10 exOutFrontend
    (by decide) (by decide)

/-- C3 witness: an equal-endpoint window is rejected for every store. -/
theorem getFreeUsers_invalid_input_rejected_witness :
    ∃ msg, ∀ st : Store,
      getFreeUsers exDateParse st ⟨some "5", some "5", .absent⟩ =
        .error (.badRequest msg) :=
  getFreeUsers_invalid_input_rejected exDateParse
    ⟨some "5", some "5", .absent⟩
    (Or.inr (Or.inr ⟨5, 5, by decide, by decide, by decide⟩))

/-- C4 witness: the amended duplicate-email theorem at the concrete
`exStore` create reusing `u2`. -/
theorem create_duplicate_email_reuses_witness :
    ∃ st' api, create exStore exCreateInput = .ok (st', api) ∧
      api.id = exExisting.id ∧
      api.name = exCreateInput.name ∧
      api.email = exCreateInput.email ∧
      api.phone = exCreateInput.phone.orElse (fun _ => exExisting.phone) ∧
      api.busy = [] ∧
      (∀ n, n ∈ api.tags ↔ n ∈ normalizeTags (exCreateInput.tags.getD [])) ∧
      (∀ n ∈ normalizeTags (exCreateInput.tags.getD []),
        n ∈ st'.tagCatalog) ∧
      (∀ s ∈ st'.busySlots, s.userId ≠ exExisting.id) ∧
      st'.users.length = exStore.users.length ∧
      (∃ u ∈ st'.users, u.id = exExisting.id ∧ u.name = exCreateInput.name ∧
        u.email = exCreateInput.email ∧
        u.phone = exCreateInput.phone.orElse (fun _ => exExisting.phone)) :=
  create_duplicate_email_reuses exStore exCreateInput exExisting
    (by decide) (by decide) (by decide)

/-- C6 witness: `u1`, returned when `backend` is added to the empty
required set, is also in the unfiltered result. -/
theorem getFreeUsers_tag_monotone_witness :
    (⟨"u1", "One", "a@x", none, ["backend"], [⟨"b1", 10, 20, none⟩], 0, 0⟩ :
      ApiUser) ∈ exOutAll :=
  getFreeUsers_tag_monotone exDateParse exStore (some "0") (some "10")
    [] "backend" exOutAll exOutBackend (by decide) (by decide)
    ⟨"u1", "One", "a@x", none, ["backend"], [⟨"b1", 10, 20, none⟩], 0, 0⟩
    (by decide)

/-- C7 witness: marking `u2` busy over `[3, 7)` with a reason. -/
theorem markBusy_spec_witness :
    ((3 : Int) ≥ 7 →
      markBusy exDateParse exStore "u2" ⟨some "3", some "7", some "standup"⟩ =
        .error (.badRequest "from must be before to")) ∧
    ((3 : Int) < 7 → (∀ u ∈ exStore.users, u.id ≠ "u2") →
      markBusy exDateParse exStore "u2" ⟨some "3", some "7", some "standup"⟩ =
        .error (.notFound "user not found")) ∧
    ((3 : Int) < 7 → ∀ u ∈ exStore.users, u.id = "u2" →
      ∃ st' slot,
        markBusy exDateParse exStore "u2"
          ⟨some "3", some "7", some "standup"⟩ = .ok (st', slot) ∧
        slot.fromT = 3 ∧ slot.toT = 7 ∧ slot.reason = some "standup" ∧
        st'.busySlots = exStore.busySlots ++
          [⟨slot.id, "u2", 3, 7, some "standup"⟩] ∧
        st'.users = exStore.users ∧ st'.userTags = exStore.userTags ∧
        st'.tagCatalog = exStore.tagCatalog) :=
  markBusy_spec exDateParse exStore "u2" ⟨some "3", some "7", some "standup"⟩
    3 7 (by decide) (by decide)

/-- C8 witness: the catalog-preservation theorem at the concrete tag
update on `exStore`. -/
theorem updateTags_detach_preserves_catalog_witness :
    (∀ n ∈ exStore.tagCatalog, n ∈ exTagStore.tagCatalog) ∧
    (∀ n ∈ normalizeTags (exUpdInput.remove.getD []),
      ¬ userHasTag exTagStore "u1" n) ∧
    (∀ uid n, uid ≠ "u1" →
      (userHasTag exTagStore uid n ↔ userHasTag exStore uid n)) :=
  updateTags_detach_preserves_catalog exStore "u1" exUpdInput exTagStore
    exTagApi (by decide)

/-- C10 witness: `z` is added and removed in the same call — afterwards
`u1` does not hold it while it exists in the catalog. -/
theorem updateTags_add_also_removed_witness :
    ¬ userHasTag exTagStore "u1" "z" ∧ "z" ∈ exTagStore.tagCatalog :=
  updateTags_add_also_removed exStore "u1" exUpdInput exTagStore exTagApi
    (by decide) "z" (by decide) (by decide)
